import Mathlib

/-! # Verification of the solidity-fcg-tool engine/normalization/query core

This file is a shallow embedding, in Lean 4, of the core logic of the
`solidity_fcg_tool` Python package:

* the domain model (`core/models.py`): function identifiers, call-graph
  edges, source locations, functions, contracts, project model;
* the engine contract (`core/engine_base.py`): lazy loading
  (`ensure_loaded`), capability-gated call-graph iteration;
* the Slither normalization adapter (`engines/slither_engine.py`):
  signature canonicalization, call deduplication, source-snippet
  fallback, call-edge collection, all-or-nothing load;
* the engine registry (`engines/registry.py`) and the query service
  (`services/query.py`): engine resolution, error wrapping, call-graph
  filtering and serialization.

Python strings are modelled as `String` (or `List Char` where character
level reasoning about `str.strip`/`str.split` is required), Python dicts
as insertion-ordered association lists, exceptions as `Except` values,
and the mutable attributes of engine/service objects as explicit state
records threaded through the functions that mutate them.  The external
analyzer (the `slither` package) is modelled as a parameter supplying
its observable outcome.
-/

namespace SolidityFcg

/-! ## Domain model (`core/models.py`) -/

/-- `FunctionIdentifier` from `core/models.py`: contract name plus
normalized signature. -/
structure FunctionIdentifier where
  contract : String
  signature : String
deriving DecidableEq, Repr

/-- `FunctionIdentifier.display_name`. -/
def FunctionIdentifier.display_name (f : FunctionIdentifier) : String :=
  f.contract ++ "." ++ f.signature

/-- `CallGraphEdge` from `core/models.py`. -/
structure CallGraphEdge where
  caller : FunctionIdentifier
  callee : FunctionIdentifier
deriving DecidableEq, Repr

/-- `CallGraphRecord` from `services/query.py`: the serializable
caller/callee display-name pair. -/
structure CallGraphRecord where
  caller : String
  callee : String
deriving DecidableEq, Repr

/-- `CallGraphRecord.from_edge`. -/
def CallGraphRecord.from_edge (e : CallGraphEdge) : CallGraphRecord :=
  { caller := e.caller.display_name, callee := e.callee.display_name }

/-- `SourceLocation` from `core/models.py`; line/column numbers are
Python ints (the sentinel -1 is representable). -/
structure SourceLocation where
  file : String
  start_line : Int
  start_column : Int
  end_line : Int
  end_column : Int
deriving DecidableEq, Repr

/-- `FunctionParameter` from `core/models.py`. -/
structure FunctionParameter where
  name : String
  type : String
deriving DecidableEq, Repr

/-- `FunctionInfo` from `core/models.py`. -/
structure FunctionInfo where
  identifier : FunctionIdentifier
  visibility : String
  mutability : Option String
  parameters : List FunctionParameter
  state_variables_read : List String
  state_variables_written : List String
  source : String
  location : Option SourceLocation
  calls : List FunctionIdentifier
deriving DecidableEq, Repr

/-- `ContractInfo` from `core/models.py`; the `functions` dict is an
insertion-ordered association list from signature to `FunctionInfo`. -/
structure ContractInfo where
  name : String
  kind : String
  filepath : String
  inheritance : List String
  functions : List (String × FunctionInfo)
  raw_source : Option String
deriving DecidableEq, Repr

/-- `ContractInfo.get_function`: dict lookup by signature. -/
def ContractInfo.get_function (c : ContractInfo) (signature : String) :
    Option FunctionInfo :=
  (c.functions.find? (fun p => decide (p.1 = signature))).map Prod.snd

/-- `ProjectModel` from `core/models.py`; the `contracts` dict is an
insertion-ordered association list from contract name to `ContractInfo`,
and engine metadata is a string-keyed association list. -/
structure ProjectModel where
  contracts : List (String × ContractInfo)
  engine_metadata : List (String × String)
deriving DecidableEq, Repr

/-- `ProjectModel.get_contract`: dict lookup by name. -/
def ProjectModel.get_contract (p : ProjectModel) (name : String) :
    Option ContractInfo :=
  (p.contracts.find? (fun q => decide (q.1 = name))).map Prod.snd

/-- `EngineCapabilities` from `core/engine_base.py`. -/
structure EngineCapabilities where
  call_graph : Bool
  state_modifiers : Bool
  inheritance_resolution : Bool
deriving DecidableEq, Repr

/-! ## Signature canonicalization (`SlitherEngine._normalize_signature`)

Python `str` values are modelled as `List Char` here, because
`_normalize_signature` works at the character level via `str.strip` and
`str.split`. -/

/-- Characters removed by Python `str.strip()` (the ASCII whitespace
characters). -/
def isPySpace (c : Char) : Bool :=
  c = ' ' || c = '\t' || c = '\n' || c = '\r' || c = '\x0b' || c = '\x0c'

/-- Python `str.lstrip()` on a character list. -/
def lstripL (l : List Char) : List Char :=
  l.dropWhile isPySpace

/-- Python `str.rstrip()` on a character list. -/
def rstripL (l : List Char) : List Char :=
  (l.reverse.dropWhile isPySpace).reverse

/-- Python `str.strip()` on a character list. -/
def pyStrip (l : List Char) : List Char :=
  rstripL (lstripL l)

/-- `needle` is a prefix of `haystack` (character-by-character). -/
def startsWithL : List Char → List Char → Bool
  | [], _ => true
  | _ :: _, [] => false
  | a :: as, b :: bs => decide (a = b) && startsWithL as bs

/-- Python `needle in haystack` substring containment. -/
def containsSub (needle : List Char) : List Char → Bool
  | [] => startsWithL needle []
  | c :: rest => startsWithL needle (c :: rest) || containsSub needle rest

/-- Python `haystack.split(needle, 1)[0]`: the part of `haystack` before
the first occurrence of the (nonempty) `needle`. -/
def beforeFirst (needle : List Char) : List Char → List Char
  | [] => []
  | c :: rest =>
      if startsWithL needle (c :: rest) then []
      else c :: beforeFirst needle rest

/-- The marker literal `" returns"` of `_normalize_signature`. -/
def markerL : List Char :=
  " returns".toList

/-- `SlitherEngine._normalize_signature` from `engines/slither_engine.py`:
return empty input unchanged; otherwise drop everything from the first
occurrence of `" returns"` (stripping the kept part), then strip. -/
def normalize_signature (s : List Char) : List Char :=
  if s = [] then s
  else if containsSub markerL s then pyStrip (pyStrip (beforeFirst markerL s))
  else pyStrip s

/-! ## Call deduplication (`SlitherEngine._extract_calls`)

The resolution of each backend call site to a `(contract, signature)`
pair is duck-typed probing of external analyzer objects; its outcome is
modelled as the input sequence of resolved pairs (already in
backend-reported order, unresolved sites already dropped).  What remains
of `_extract_calls` is the order-preserving `seen`-set deduplication
loop, embedded here with the `seen` set as a list carried through the
recursion. -/

/-- The deduplication loop of `SlitherEngine._extract_calls`: keep a
pair if it is not in `seen`, recording it in `seen`. -/
def extract_calls_go (seen : List (String × String)) :
    List (String × String) → List (String × String)
  | [] => []
  | p :: rest =>
      if p ∈ seen then extract_calls_go seen rest
      else p :: extract_calls_go (p :: seen) rest

/-- `SlitherEngine._extract_calls` on the resolved pair sequence:
deduplicate with an initially empty `seen` set. -/
def extract_calls (pairs : List (String × String)) : List (String × String) :=
  extract_calls_go [] pairs

/-- The call list actually stored by `_extract_calls`: each kept pair
wrapped as `FunctionIdentifier(*identifier)`. -/
def extract_calls_ids (pairs : List (String × String)) : List FunctionIdentifier :=
  (extract_calls pairs).map (fun p => FunctionIdentifier.mk p.1 p.2)

/-- Index of the first occurrence of `x` in a list (0-based; length of
the list when absent). -/
def firstIndex (x : String × String) : List (String × String) → Nat
  | [] => 0
  | y :: rest => if x = y then 0 else firstIndex x rest + 1

/-! ## Lazy loading (`AnalysisEngine.ensure_loaded`) -/

/-- The `_project_model` attribute of an `AnalysisEngine` instance. -/
structure EngineState (M : Type) where
  project_model : Option M
deriving DecidableEq, Repr

/-- `AnalysisEngine.ensure_loaded` for an engine whose `load()` succeeds
with result `load`: returns the model, the updated state, and the number
of times `load()` was invoked during the call. -/
def ensure_loaded {M : Type} (load : M) (s : EngineState M) :
    M × EngineState M × Nat :=
  match s.project_model with
  | some m => (m, s, 0)
  | none => (load, { project_model := some load }, 1)

/-- `n` consecutive `ensure_loaded` calls on one engine instance:
the list of returned models, the final state, and the total number of
`load()` invocations. -/
def ensure_loaded_runs {M : Type} (load : M) : Nat → EngineState M →
    List M × EngineState M × Nat
  | 0, s => ([], s, 0)
  | n + 1, s =>
      let r := ensure_loaded load s
      let rest := ensure_loaded_runs load n r.2.1
      (r.1 :: rest.1, rest.2.1, r.2.2 + rest.2.2)

/-! ## Call-graph iteration (`AnalysisEngine.iter_call_graph`,
`SlitherEngine._iter_call_graph_impl`, `SlitherEngine.load`)

Python exceptions raised by engine methods carry only a message; they
are modelled as `Except String`. -/

/-- The message of the capability failure raised by
`AnalysisEngine.iter_call_graph`. -/
def unsupported_msg (name : String) : String :=
  "Engine " ++ name ++ " does not support call graph generation"

/-- The message raised by `SlitherEngine._iter_call_graph_impl` before
the project is loaded. -/
def not_loaded_msg : String :=
  "Call graph not available before loading the project"

/-- `SlitherEngine._iter_call_graph_impl`: fail before load, otherwise
return the cached edge tuple. -/
def iter_call_graph_impl (cache : Option (List CallGraphEdge)) :
    Except String (List CallGraphEdge) :=
  match cache with
  | none => Except.error not_loaded_msg
  | some edges => Except.ok edges

/-- `AnalysisEngine.iter_call_graph`: raise the capability failure when
`capabilities.call_graph` is false, otherwise defer to the
implementation result. -/
def engine_iter_call_graph (name : String) (caps : EngineCapabilities)
    (impl : Except String (List CallGraphEdge)) :
    Except String (List CallGraphEdge) :=
  if caps.call_graph = false then Except.error (unsupported_msg name)
  else impl

/-- `SlitherEngine._collect_call_edges`: one edge per entry of each
function's deduplicated call list, over contracts and functions in
insertion order. -/
def collect_call_edges (project : ProjectModel) : List CallGraphEdge :=
  (project.contracts.map (fun c =>
    (c.2.functions.map (fun f =>
      f.2.calls.map (fun callee =>
        CallGraphEdge.mk f.2.identifier callee))).flatten)).flatten

/-! ## Slither load (`SlitherEngine.load`)

The mutable attributes of a `SlitherEngine` instance relevant to
loading, and `load` itself.  The external analyzer invocation together
with per-contract conversion (`_build_slither` plus the
`_convert_contract` loop, which consume external `slither` objects) is
modelled by its observable outcome `build`: either the resulting
`ProjectModel` or the message of the exception the analyzer raised. -/

/-- The `_call_graph_cache` and `_project_model` attributes of a
`SlitherEngine` instance. -/
structure SlitherState where
  call_graph_cache : Option (List CallGraphEdge)
  project_model : Option ProjectModel
deriving DecidableEq, Repr

/-- `SlitherEngine.load`: on analyzer failure re-raise an `EngineError`
whose message wraps the original one, leaving the instance unchanged; on
success store the project model and the call-graph cache computed by
`_collect_call_edges`. -/
def slither_load (build : Except String ProjectModel) (s : SlitherState) :
    Except String ProjectModel × SlitherState :=
  match build with
  | Except.error msg =>
      (Except.error ("Failed to analyze project with Slither: " ++ msg), s)
  | Except.ok project =>
      (Except.ok project,
       { call_graph_cache := some (collect_call_edges project),
         project_model := some project })

/-- `AnalysisEngine.ensure_loaded` as executed on a `SlitherEngine`:
when `_project_model` is unset, run `load`; a load failure propagates
and leaves the state as `load` left it. -/
def slither_ensure_loaded (build : Except String ProjectModel)
    (s : SlitherState) : Except String ProjectModel × SlitherState :=
  match s.project_model with
  | some m => (Except.ok m, s)
  | none => slither_load build s

/-! ## Source-snippet fallback (`SlitherEngine._read_source_snippet`)

The filesystem is modelled as a map from path to the outcome of
`open(path).readlines()`: the file's lines (each keeping its trailing
newline), a raised `FileNotFoundError`, or some other raised error
(`PermissionError`, `IsADirectoryError`, `UnicodeDecodeError`, ...)
carrying its message.  The source's `except` clause catches only
`FileNotFoundError`; every other open/read failure propagates out of
`_read_source_snippet`, so the embedding returns `Except`. -/

/-- Outcome of Python `open(path, "r", encoding="utf-8").readlines()`. -/
inductive OpenResult where
  | lines (ls : List String)
  | fileNotFound
  | otherError (msg : String)
deriving DecidableEq, Repr

/-- `SlitherEngine._read_source_snippet`: empty string for sentinel or
pathless locations; empty string when `open` raises
`FileNotFoundError`; any other open/read error propagates; otherwise
the `lines[start_idx:end_idx]` slice joined. -/
def read_source_snippet (fs : String → OpenResult)
    (loc : SourceLocation) : Except String String :=
  if loc.file = "" ∨ loc.start_line < 0 ∨ loc.end_line < 0 then Except.ok ""
  else
    match fs loc.file with
    | OpenResult.fileNotFound => Except.ok ""
    | OpenResult.otherError msg => Except.error msg
    | OpenResult.lines lines =>
        let start_idx : Int := max (loc.start_line - 1) 0
        let end_idx : Int := max loc.end_line (start_idx + 1)
        Except.ok (String.join ((lines.take end_idx.toNat).drop start_idx.toNat))

/-! ## Serialization (`FunctionInfo.as_dict`) -/

/-- JSON-like values appearing in serialized payloads. -/
inductive JsonVal where
  | str (s : String)
  | int (n : Int)
  | null
  | arr (xs : List JsonVal)
  | obj (fields : List (String × JsonVal))

/-- The `location` payload entry of `FunctionInfo.as_dict`: `null` when
no location was found, otherwise file (formatted when non-empty), start
line and end line. -/
def location_payload (fmt : String → String) :
    Option SourceLocation → JsonVal
  | none => JsonVal.null
  | some loc =>
      JsonVal.obj
        [("file", JsonVal.str (if loc.file = "" then loc.file else fmt loc.file)),
         ("start_line", JsonVal.int loc.start_line),
         ("end_line", JsonVal.int loc.end_line)]

/-- One `calls` payload entry of `FunctionInfo.as_dict`: module and
function, plus the callee's file when the callee resolves in the same
project with a located definition. -/
def call_payload_entry (project : ProjectModel) (fmt : String → String)
    (call : FunctionIdentifier) : List (String × JsonVal) :=
  let base := [("module", JsonVal.str call.contract),
               ("function", JsonVal.str call.signature)]
  match project.get_contract call.contract with
  | none => base
  | some callee_contract =>
      match callee_contract.get_function call.signature with
      | none => base
      | some callee_info =>
          match callee_info.location with
          | none => base
          | some loc =>
              if loc.file = "" then base
              else base ++ [("file", JsonVal.str (fmt loc.file))]

/-- `FunctionInfo.as_dict` from `core/models.py`: the serialized
function payload, with exactly the keys `contract`, `function`,
`source`, `location`, `parameter`, `calls`. -/
def FunctionInfo.as_dict (f : FunctionInfo) (project : ProjectModel)
    (fmt : String → String) : List (String × JsonVal) :=
  [("contract", JsonVal.str f.identifier.contract),
   ("function", JsonVal.str f.identifier.signature),
   ("source", JsonVal.str f.source),
   ("location", location_payload fmt f.location),
   ("parameter", JsonVal.arr (f.parameters.map (fun p =>
      JsonVal.obj [("name", JsonVal.str p.name), ("type", JsonVal.str p.type)]))),
   ("calls", JsonVal.arr ((f.calls.map (call_payload_entry project fmt)).map
      JsonVal.obj))]

/-! ## Engine registry (`engines/registry.py`) and query service
(`services/query.py`)

The registry is an insertion-ordered dict from engine name to
registration; a registration carries the factory.  The engine type `E`
and the behavior of a constructed engine (an `EngineOps` record) are
parameters, since concrete engines wrap the external analyzer.  The
`KeyError` raised by `EngineRegistry.get` is modelled as the error side
of an `Except String`; `QueryError` is a distinct type, so a leaked
registry error would be visible in the result type. -/

/-- `EngineRegistration` from `engines/registry.py` (the fields used by
lookup and construction). -/
structure EngineRegistration (E : Type) where
  name : String
  factory : String → E
  description : String

/-- `QueryError` from `services/query.py`. -/
inductive QueryErr where
  | queryError (msg : String)
deriving DecidableEq, Repr

/-- `EngineRegistry.get` (via `resolve_engine`): lookup by name, raising
`KeyError("Engine {name} is not registered")` when absent. -/
def resolve_engine {E : Type} (registry : List (String × EngineRegistration E))
    (name : String) : Except String (EngineRegistration E) :=
  match registry.find? (fun p => decide (p.1 = name)) with
  | some p => Except.ok p.2
  | none => Except.error ("Engine " ++ name ++ " is not registered")

/-- The behavior of a constructed engine instance, as consumed by the
query service: `ensure_loaded` (possibly mutating the instance) and
`iter_call_graph` / `get_function` (both reading the loaded model). -/
structure EngineOps (E : Type) where
  ensureLoaded : E → Except String ProjectModel × E
  iterCallGraph : E → Except String (List CallGraphEdge)
  getFunction : E → FunctionIdentifier → Option FunctionInfo × E

/-- The `_engine` and `_project` attributes of a `QueryService`
instance. -/
structure QueryState (E : Type) where
  engine : Option E
  project : Option ProjectModel
deriving DecidableEq, Repr

/-- `QueryService._ensure_engine`: construct the engine on first use by
resolving the registration; an unregistered name raises
`QueryError("Engine {name} is not registered")` (wrapping the registry
`KeyError`) and constructs nothing. -/
def ensure_engine {E : Type} (registry : List (String × EngineRegistration E))
    (engine_name project_path : String) (s : QueryState E) :
    Except QueryErr E × QueryState E :=
  match s.engine with
  | some e => (Except.ok e, s)
  | none =>
      match resolve_engine registry engine_name with
      | Except.error _ =>
          (Except.error (QueryErr.queryError
             ("Engine " ++ engine_name ++ " is not registered")), s)
      | Except.ok registration =>
          let e := registration.factory project_path
          (Except.ok e, { s with engine := some e })

/-- `QueryService._ensure_project`: load lazily through the engine,
translating an `EngineError` into a `QueryError` with the same
message. -/
def ensure_project {E : Type} (ops : EngineOps E)
    (registry : List (String × EngineRegistration E))
    (engine_name project_path : String) (s : QueryState E) :
    Except QueryErr ProjectModel × QueryState E :=
  match s.project with
  | some p => (Except.ok p, s)
  | none =>
      match ensure_engine registry engine_name project_path s with
      | (Except.error e, s1) => (Except.error e, s1)
      | (Except.ok eng, s1) =>
          match ops.ensureLoaded eng with
          | (Except.error msg, eng1) =>
              (Except.error (QueryErr.queryError msg),
               { s1 with engine := some eng1 })
          | (Except.ok p, eng1) =>
              (Except.ok p, { engine := some eng1, project := some p })

/-- `QueryService.list_contracts`. -/
def query_list_contracts {E : Type} (ops : EngineOps E)
    (registry : List (String × EngineRegistration E))
    (engine_name project_path : String) (s : QueryState E) :
    Except QueryErr (List String) × QueryState E :=
  match ensure_project ops registry engine_name project_path s with
  | (Except.error e, s1) => (Except.error e, s1)
  | (Except.ok p, s1) =>
      (Except.ok (p.contracts.map (fun c => c.2.name)), s1)

/-- `QueryService.get_function`: engine lookup plus the "function not
found" `QueryError`. -/
def query_get_function {E : Type} (ops : EngineOps E)
    (registry : List (String × EngineRegistration E))
    (engine_name project_path contract signature : String)
    (s : QueryState E) : Except QueryErr FunctionInfo × QueryState E :=
  match ensure_engine registry engine_name project_path s with
  | (Except.error e, s1) => (Except.error e, s1)
  | (Except.ok eng, s1) =>
      match ops.getFunction eng (FunctionIdentifier.mk contract signature) with
      | (none, eng1) =>
          (Except.error (QueryErr.queryError
             ("Function " ++ signature ++ " not found in contract " ++ contract)),
           { s1 with engine := some eng1 })
      | (some f, eng1) =>
          (Except.ok f, { s1 with engine := some eng1 })

/-- `QueryService.get_function_source`: ensure the project, resolve the
function, serialize via `FunctionInfo.as_dict`. -/
def query_get_function_source {E : Type} (ops : EngineOps E)
    (registry : List (String × EngineRegistration E))
    (engine_name project_path contract signature : String)
    (fmt : String → String) (s : QueryState E) :
    Except QueryErr (List (String × JsonVal)) × QueryState E :=
  match ensure_project ops registry engine_name project_path s with
  | (Except.error e, s1) => (Except.error e, s1)
  | (Except.ok p, s1) =>
      match query_get_function ops registry engine_name project_path
              contract signature s1 with
      | (Except.error e, s2) => (Except.error e, s2)
      | (Except.ok f, s2) => (Except.ok (f.as_dict p fmt), s2)

/-- The first `continue` condition of `QueryService.iter_call_graph`:
`caller_contract and edge.caller.contract != caller_contract` — the
filter is truthy (provided and non-empty) and differs from the edge's
caller contract. -/
def skip_by_contract : Option String → CallGraphEdge → Bool
  | none, _ => false
  | some c, e => decide (c ≠ "") && decide (e.caller.contract ≠ c)

/-- The second `continue` condition of `QueryService.iter_call_graph`:
`caller_signature and edge.caller.signature != caller_signature`. -/
def skip_by_signature : Option String → CallGraphEdge → Bool
  | none, _ => false
  | some c, e => decide (c ≠ "") && decide (e.caller.signature ≠ c)

/-- The filtering loop of `QueryService.iter_call_graph`: skip an edge
when either `continue` condition holds, otherwise yield the edge's
record. -/
def filter_records (caller_contract caller_signature : Option String) :
    List CallGraphEdge → List CallGraphRecord
  | [] => []
  | e :: rest =>
      if skip_by_contract caller_contract e then
        filter_records caller_contract caller_signature rest
      else if skip_by_signature caller_signature e then
        filter_records caller_contract caller_signature rest
      else
        CallGraphRecord.from_edge e ::
          filter_records caller_contract caller_signature rest

/-- `QueryService.get_call_graph` (materializing
`QueryService.iter_call_graph`): ensure the project, obtain the engine's
edge sequence (translating an `EngineError` into a `QueryError`), and
filter it. -/
def query_get_call_graph {E : Type} (ops : EngineOps E)
    (registry : List (String × EngineRegistration E))
    (engine_name project_path : String)
    (caller_contract caller_signature : Option String) (s : QueryState E) :
    Except QueryErr (List CallGraphRecord) × QueryState E :=
  match ensure_project ops registry engine_name project_path s with
  | (Except.error e, s1) => (Except.error e, s1)
  | (Except.ok _, s1) =>
      match ensure_engine registry engine_name project_path s1 with
      | (Except.error e, s2) => (Except.error e, s2)
      | (Except.ok eng, s2) =>
          match ops.iterCallGraph eng with
          | Except.error msg =>
              (Except.error (QueryErr.queryError msg), s2)
          | Except.ok edges =>
              (Except.ok (filter_records caller_contract caller_signature edges),
               s2)

/-! ## Spec-side filter definitions (for the refinement claims about
call-graph filtering) -/

/-- The claim's wording of a given contract filter: an edge passes a
*given* filter only by matching it verbatim (an empty-string filter,
being given, must then be matched verbatim). -/
def claim_keep_contract : Option String → CallGraphEdge → Bool
  | none, _ => true
  | some c, e => decide (e.caller.contract = c)

/-- The claim's wording of a given signature filter. -/
def claim_keep_signature : Option String → CallGraphEdge → Bool
  | none, _ => true
  | some c, e => decide (e.caller.signature = c)

/-- The filter predicate exactly as the claim words it (conjunctive when
both filters are given). -/
def claim_filter_keep (caller_contract caller_signature : Option String)
    (e : CallGraphEdge) : Bool :=
  claim_keep_contract caller_contract e &&
    claim_keep_signature caller_signature e

/-- The result the claim, as literally stated, predicts for
`get_call_graph`. -/
def claim_filtered (caller_contract caller_signature : Option String)
    (edges : List CallGraphEdge) : List CallGraphRecord :=
  (edges.filter (claim_filter_keep caller_contract caller_signature)).map
    CallGraphRecord.from_edge

/-- The amended contract filter: it applies only when given *and
non-empty*; an empty-string filter behaves as an absent one. -/
def amended_keep_contract : Option String → CallGraphEdge → Bool
  | none, _ => true
  | some c, e => if c = "" then true else decide (e.caller.contract = c)

/-- The amended signature filter. -/
def amended_keep_signature : Option String → CallGraphEdge → Bool
  | none, _ => true
  | some c, e => if c = "" then true else decide (e.caller.signature = c)

/-- The amended filter predicate. -/
def amended_filter_keep (caller_contract caller_signature : Option String)
    (e : CallGraphEdge) : Bool :=
  amended_keep_contract caller_contract e &&
    amended_keep_signature caller_signature e

/-- The result the amended claim predicts for `get_call_graph`. -/
def amended_filtered (caller_contract caller_signature : Option String)
    (edges : List CallGraphEdge) : List CallGraphRecord :=
  (edges.filter (amended_filter_keep caller_contract caller_signature)).map
    CallGraphRecord.from_edge

/-! ## Concrete sample data for witnesses and counterexamples -/

/-- `SlitherEngine.DEFAULT_CAPABILITIES`. -/
def slither_capabilities : EngineCapabilities :=
  { call_graph := true, state_modifiers := true, inheritance_resolution := true }

/-- An empty project model, for concrete instantiations. -/
def sampleProject : ProjectModel :=
  { contracts := [], engine_metadata := [] }

/-- A one-edge call graph whose caller has a non-empty contract name. -/
def sampleEdges : List CallGraphEdge :=
  [{ caller := { contract := "A", signature := "f()" },
     callee := { contract := "B", signature := "g()" } }]

/-- Behavior of a stub engine (of trivial instance type `Unit`) holding
`sampleEdges`. -/
def sampleOps : EngineOps Unit :=
  { ensureLoaded := fun e => (Except.ok sampleProject, e),
    iterCallGraph := fun _ => Except.ok sampleEdges,
    getFunction := fun e _ => (none, e) }

/-- A query-service state whose engine is constructed and whose project
is loaded. -/
def sampleLoadedState : QueryState Unit :=
  { engine := some (), project := some sampleProject }

/-- A fresh query-service state: nothing constructed or loaded. -/
def sampleFreshState : QueryState Unit :=
  { engine := none, project := none }

/-- A sample signature carrying a `" returns"` clause. -/
def sampleSig : List Char :=
  "transfer(address,uint256) returns (bool)".toList

/-- A concrete filesystem for the snippet witness and counterexample:
one readable three-line file, one file whose `open` raises
`PermissionError`, everything else missing. -/
def sampleFs : String → OpenResult :=
  fun f =>
    if f = "a.sol" then OpenResult.lines ["line1\n", "line2\n", "line3\n"]
    else if f = "locked.sol" then OpenResult.otherError "Permission denied"
    else OpenResult.fileNotFound

/-- A valid location pointing at lines 2..3 of `a.sol`. -/
def sampleLoc : SourceLocation :=
  { file := "a.sol", start_line := 2, start_column := 1,
    end_line := 3, end_column := 1 }

/-- A valid location on the unreadable file `locked.sol`. -/
def sampleLockedLoc : SourceLocation :=
  { file := "locked.sol", start_line := 1, start_column := 1,
    end_line := 1, end_column := 1 }

/-! # Theorems -/

/-! ## Helper lemmas for signature canonicalization -/

theorem rstripL_eq_rdropWhile (l : List Char) :
    rstripL l = List.rdropWhile isPySpace l := rfl

theorem lstripL_idem (l : List Char) : lstripL (lstripL l) = lstripL l :=
  List.dropWhile_idempotent _ _

theorem rstripL_idem (l : List Char) : rstripL (rstripL l) = rstripL l := by
  simp only [rstripL_eq_rdropWhile]
  exact List.rdropWhile_idempotent _ _

theorem lstripL_sfx (l : List Char) : lstripL l <:+ l :=
  List.dropWhile_suffix _

theorem rstripL_pfx (l : List Char) : rstripL l <+: l := by
  rw [rstripL_eq_rdropWhile]
  exact List.rdropWhile_prefix _ _

theorem lstripL_of_pfx {l r : List Char} (hl : lstripL l = l) (h : r <+: l) :
    lstripL r = r := by
  cases r with
  | nil => rfl
  | cons a r2 =>
      obtain ⟨t, ht⟩ := h
      subst ht
      rw [lstripL, List.dropWhile_eq_self_iff] at hl
      have h0 : 0 < (a :: r2 ++ t).length := by simp
      have ha : ¬ isPySpace a = true := by
        have h1 := hl h0
        simpa using h1
      rw [lstripL, List.dropWhile_cons_of_neg ha]

theorem pyStrip_idem (l : List Char) : pyStrip (pyStrip l) = pyStrip l := by
  have h1 : lstripL (rstripL (lstripL l)) = rstripL (lstripL l) :=
    lstripL_of_pfx (lstripL_idem l) (rstripL_pfx (lstripL l))
  simp only [pyStrip]
  rw [h1, rstripL_idem]

theorem pyStrip_infix_self (l : List Char) : pyStrip l <:+: l :=
  List.IsInfix.trans (List.IsPrefix.isInfix (rstripL_pfx (lstripL l)))
    (List.IsSuffix.isInfix (lstripL_sfx l))

theorem startsWithL_iff : ∀ (n l : List Char), startsWithL n l = true ↔ n <+: l
  | [], l => by
      simp only [startsWithL, true_iff]
      exact List.nil_prefix
  | a :: as, [] => by
      simp [startsWithL]
  | a :: as, b :: bs => by
      simp only [startsWithL, Bool.and_eq_true, decide_eq_true_eq,
        List.cons_prefix_cons]
      exact and_congr Iff.rfl (startsWithL_iff as bs)

theorem containsSub_iff : ∀ (n l : List Char), containsSub n l = true ↔ n <:+: l
  | n, [] => by
      simp only [containsSub, startsWithL_iff]
      rw [List.infix_nil, List.prefix_nil]
  | n, c :: rest => by
      simp only [containsSub, Bool.or_eq_true, startsWithL_iff,
        containsSub_iff n rest]
      exact List.infix_cons_iff.symm

theorem containsSub_of_infix_false {n x y : List Char}
    (hx : containsSub n x = false) (hyx : y <:+: x) :
    containsSub n y = false := by
  by_contra h
  rw [Bool.not_eq_false, containsSub_iff] at h
  have hx2 : ¬ n <:+: x := by
    rw [← containsSub_iff, hx]
    simp
  exact hx2 (h.trans hyx)

theorem beforeFirst_pfx : ∀ (n s : List Char), beforeFirst n s <+: s
  | _, [] => List.prefix_refl []
  | n, c :: rest => by
      rw [beforeFirst]
      by_cases h : startsWithL n (c :: rest) = true
      · rw [if_pos h]
        exact List.nil_prefix
      · rw [if_neg h]
        exact List.cons_prefix_cons.mpr ⟨rfl, beforeFirst_pfx n rest⟩

theorem beforeFirst_not_contains : ∀ (n s : List Char), n ≠ [] →
    containsSub n (beforeFirst n s) = false
  | n, [], hn => by
      cases n with
      | nil => exact absurd rfl hn
      | cons a as => rfl
  | n, c :: rest, hn => by
      rw [beforeFirst]
      by_cases h : startsWithL n (c :: rest) = true
      · rw [if_pos h]
        cases n with
        | nil => exact absurd rfl hn
        | cons a as => rfl
      · rw [if_neg h]
        have ih := beforeFirst_not_contains n rest hn
        rw [containsSub, ih, Bool.or_false]
        by_cases h2 : startsWithL n (c :: beforeFirst n rest) = true
        · exfalso
          apply h
          rw [startsWithL_iff] at h2 ⊢
          exact h2.trans (List.cons_prefix_cons.mpr ⟨rfl, beforeFirst_pfx n rest⟩)
        · simpa using h2

theorem beforeFirst_split : ∀ (n s : List Char), containsSub n s = true →
    ∃ rest, s = beforeFirst n s ++ rest ∧ startsWithL n rest = true
  | n, [], h => ⟨[], by simp [beforeFirst], by simpa [containsSub] using h⟩
  | n, c :: rest, h => by
      rw [beforeFirst]
      by_cases hs : startsWithL n (c :: rest) = true
      · exact ⟨c :: rest, by rw [if_pos hs]; rfl, hs⟩
      · rw [if_neg hs]
        have h2 : containsSub n rest = true := by
          rw [containsSub, Bool.or_eq_true] at h
          rcases h with h | h
          · exact absurd h hs
          · exact h
        obtain ⟨r2, hr1, hr2⟩ := beforeFirst_split n rest h2
        refine ⟨r2, ?_, hr2⟩
        rw [List.cons_append, ← hr1]

theorem beforeFirst_minimal : ∀ (n s pre suf : List Char), s = pre ++ suf →
    startsWithL n suf = true → (beforeFirst n s).length ≤ pre.length
  | _, [], _, _, _, _ => by
      rw [beforeFirst]
      simp
  | n, c :: rest, pre, suf, hsplit, hsw => by
      rw [beforeFirst]
      by_cases hs : startsWithL n (c :: rest) = true
      · rw [if_pos hs]
        simp
      · rw [if_neg hs]
        cases pre with
        | nil =>
            exfalso
            rw [List.nil_append] at hsplit
            exact hs (hsplit ▸ hsw)
        | cons d pre2 =>
            rw [List.cons_append] at hsplit
            injection hsplit with h1 h2
            have ih := beforeFirst_minimal n rest pre2 suf h2 hsw
            simp only [List.length_cons]
            omega

theorem markerL_ne_nil : markerL ≠ [] := by decide

theorem normalize_no_marker (s : List Char) :
    containsSub markerL (normalize_signature s) = false := by
  rw [normalize_signature]
  by_cases hempty : s = []
  · rw [if_pos hempty, hempty]
    decide
  · rw [if_neg hempty]
    by_cases hc : containsSub markerL s = true
    · rw [if_pos hc]
      have h1 : containsSub markerL (beforeFirst markerL s) = false :=
        beforeFirst_not_contains markerL s markerL_ne_nil
      have h2 := containsSub_of_infix_false h1
        (pyStrip_infix_self (beforeFirst markerL s))
      exact containsSub_of_infix_false h2
        (pyStrip_infix_self (pyStrip (beforeFirst markerL s)))
    · rw [if_neg hc]
      have hx : containsSub markerL s = false := by
        simpa using hc
      exact containsSub_of_infix_false hx (pyStrip_infix_self s)

theorem normalize_idem (s : List Char) :
    normalize_signature (normalize_signature s) = normalize_signature s := by
  have hno := normalize_no_marker s
  by_cases hempty : s = []
  · subst hempty; rfl
  · have hform : ∃ x, normalize_signature s = pyStrip x := by
      rw [normalize_signature, if_neg hempty]
      by_cases hc : containsSub markerL s = true
      · rw [if_pos hc]
        exact ⟨pyStrip (beforeFirst markerL s), rfl⟩
      · rw [if_neg hc]
        exact ⟨s, rfl⟩
    obtain ⟨x, hx⟩ := hform
    by_cases hr : normalize_signature s = []
    · rw [hr]
      rfl
    · rw [normalize_signature, if_neg hr,
        if_neg (by simp [hno] : ¬ containsSub markerL (normalize_signature s) = true),
        hx, pyStrip_idem]

/-! ## C2: signature canonicalization -/

/-- C2: `_normalize_signature` is idempotent; for every signature
containing the literal token `" returns"`, the output is the prefix of
the input before the first occurrence of that token, stripped of
leading/trailing whitespace (the split part is characterized as an
actual occurrence of minimal position); and no normalized output
contains the `" returns"` token. -/
theorem C2_normalize_signature_canonical (s : List Char) :
    normalize_signature (normalize_signature s) = normalize_signature s ∧
    (containsSub markerL s = true →
      normalize_signature s = pyStrip (beforeFirst markerL s) ∧
      (∃ rest, s = beforeFirst markerL s ++ rest ∧
        startsWithL markerL rest = true) ∧
      (∀ pre suf, s = pre ++ suf → startsWithL markerL suf = true →
        (beforeFirst markerL s).length ≤ pre.length)) ∧
    containsSub markerL (normalize_signature s) = false := by
  refine ⟨normalize_idem s,
    fun hc => ⟨?_, beforeFirst_split markerL s hc,
      fun pre suf h1 h2 => beforeFirst_minimal markerL s pre suf h1 h2⟩,
    normalize_no_marker s⟩
  have hempty : s ≠ [] := by
    intro h
    subst h
    exact absurd hc (by decide)
  rw [normalize_signature, if_neg hempty, if_pos hc, pyStrip_idem]

/-- C2 witness: the theorem applied to the concrete signature
`"transfer(address,uint256) returns (bool)"`, whose normal form is
`"transfer(address,uint256)"`. -/
theorem C2_normalize_signature_canonical_witness :
    normalize_signature (normalize_signature sampleSig) =
      normalize_signature sampleSig ∧
    normalize_signature sampleSig = pyStrip (beforeFirst markerL sampleSig) ∧
    containsSub markerL (normalize_signature sampleSig) = false ∧
    normalize_signature sampleSig = "transfer(address,uint256)".toList := by
  have h := C2_normalize_signature_canonical sampleSig
  exact ⟨h.1, (h.2.1 (by decide)).1, h.2.2, by decide⟩

/-! ## Helper lemmas for call deduplication -/

theorem extract_calls_go_mem (x : String × String) :
    ∀ (l seen : List (String × String)),
      x ∈ extract_calls_go seen l ↔ x ∈ l ∧ x ∉ seen
  | [], seen => by simp [extract_calls_go]
  | p :: rest, seen => by
      rw [extract_calls_go]
      by_cases hp : p ∈ seen
      · rw [if_pos hp, extract_calls_go_mem x rest seen]
        constructor
        · rintro ⟨h1, h2⟩
          exact ⟨List.mem_cons_of_mem p h1, h2⟩
        · rintro ⟨h1, h2⟩
          rcases List.mem_cons.mp h1 with h1 | h1
          · subst h1
            exact absurd hp h2
          · exact ⟨h1, h2⟩
      · rw [if_neg hp]
        simp only [List.mem_cons, extract_calls_go_mem x rest (p :: seen)]
        by_cases hxp : x = p
        · subst hxp
          simp [hp]
        · tauto

theorem extract_calls_go_nodup :
    ∀ (l seen : List (String × String)), (extract_calls_go seen l).Nodup
  | [], _ => List.nodup_nil
  | p :: rest, seen => by
      rw [extract_calls_go]
      by_cases hp : p ∈ seen
      · rw [if_pos hp]
        exact extract_calls_go_nodup rest seen
      · rw [if_neg hp]
        refine List.Nodup.cons ?_ (extract_calls_go_nodup rest (p :: seen))
        intro hmem
        have h := (extract_calls_go_mem p rest (p :: seen)).mp hmem
        exact h.2 (List.mem_cons_self p seen)

theorem extract_calls_go_congr :
    ∀ (l s t : List (String × String)), (∀ x, x ∈ s ↔ x ∈ t) →
      extract_calls_go s l = extract_calls_go t l
  | [], _, _, _ => rfl
  | p :: rest, s, t, hst => by
      rw [extract_calls_go, extract_calls_go]
      by_cases hp : p ∈ s
      · rw [if_pos hp, if_pos ((hst p).mp hp)]
        exact extract_calls_go_congr rest s t hst
      · rw [if_neg hp, if_neg (fun hc => hp ((hst p).mpr hc))]
        rw [extract_calls_go_congr rest (p :: s) (p :: t)
          (fun x => by rw [List.mem_cons, List.mem_cons, hst x])]

theorem extract_calls_go_filter :
    ∀ (l seen : List (String × String)) (a : String × String),
      extract_calls_go (a :: seen) l =
        extract_calls_go seen (l.filter (fun x => decide (x ≠ a)))
  | [], _, _ => rfl
  | p :: rest, seen, a => by
      by_cases hpa : p = a
      · subst hpa
        have hfil : (p :: rest).filter (fun x => decide (x ≠ p)) =
            rest.filter (fun x => decide (x ≠ p)) := by
          simp [List.filter_cons]
        rw [hfil, extract_calls_go, if_pos (List.mem_cons_self p seen)]
        exact extract_calls_go_filter rest seen p
      · have hfil : (p :: rest).filter (fun x => decide (x ≠ a)) =
            p :: rest.filter (fun x => decide (x ≠ a)) := by
          simp [List.filter_cons, hpa]
        rw [hfil]
        by_cases hp : p ∈ seen
        · rw [extract_calls_go, if_pos (List.mem_cons_of_mem a hp),
            extract_calls_go, if_pos hp]
          exact extract_calls_go_filter rest seen a
        · rw [extract_calls_go,
            if_neg (fun hc => by
              rcases List.mem_cons.mp hc with hc | hc
              · exact hpa hc
              · exact hp hc),
            extract_calls_go, if_neg hp]
          have hcongr := extract_calls_go_congr rest (p :: a :: seen)
            (a :: p :: seen)
            (fun x => by
              rw [List.mem_cons, List.mem_cons, List.mem_cons, List.mem_cons]
              tauto)
          rw [hcongr, extract_calls_go_filter rest (p :: seen) a]

theorem firstIndex_cons (x y : String × String) (l : List (String × String)) :
    firstIndex x (y :: l) = if x = y then 0 else firstIndex x l + 1 := rfl

theorem firstIndex_filter_lt :
    ∀ (l : List (String × String)) (q : (String × String) → Bool)
      (a b : String × String), a ∈ l.filter q → b ∈ l.filter q →
      (firstIndex a (l.filter q) < firstIndex b (l.filter q) ↔
        firstIndex a l < firstIndex b l)
  | [], _, a, _, ha, _ => absurd ha (by simp)
  | c :: l2, q, a, b, ha, hb => by
      by_cases hqc : q c = true
      · have hfil : (c :: l2).filter q = c :: l2.filter q := by
          simp [List.filter_cons, hqc]
        rw [hfil] at ha hb ⊢
        by_cases hac : a = c
        · subst hac
          by_cases hbc : b = a
          · subst hbc
            simp
          · simp only [firstIndex_cons, if_pos rfl, if_neg hbc, ite_true]
            omega
        · by_cases hbc : b = c
          · subst hbc
            simp only [firstIndex_cons, if_pos rfl, if_neg hac, ite_true]
            omega
          · have ha2 : a ∈ l2.filter q := by
              rcases List.mem_cons.mp ha with h | h
              · exact absurd h hac
              · exact h
            have hb2 : b ∈ l2.filter q := by
              rcases List.mem_cons.mp hb with h | h
              · exact absurd h hbc
              · exact h
            have ih := firstIndex_filter_lt l2 q a b ha2 hb2
            simp only [firstIndex_cons, if_neg hac, if_neg hbc]
            omega
      · have hfil : (c :: l2).filter q = l2.filter q := by
          simp [List.filter_cons, hqc]
        rw [hfil] at ha hb ⊢
        have hqa : q a = true := (List.mem_filter.mp ha).2
        have hqb : q b = true := (List.mem_filter.mp hb).2
        have hac : ¬ a = c := fun h => hqc (h ▸ hqa)
        have hbc : ¬ b = c := fun h => hqc (h ▸ hqb)
        have ih := firstIndex_filter_lt l2 q a b ha hb
        simp only [firstIndex_cons, if_neg hac, if_neg hbc]
        omega

theorem extract_calls_pairwise_aux :
    ∀ (n : Nat) (l : List (String × String)), l.length ≤ n →
      List.Pairwise (fun a b => firstIndex a l < firstIndex b l)
        (extract_calls l)
  | 0, [], _ => List.Pairwise.nil
  | 0, _ :: _, h => by simp at h
  | _ + 1, [], _ => List.Pairwise.nil
  | n + 1, p :: rest, h => by
      rw [extract_calls, extract_calls_go, if_neg (List.not_mem_nil p),
        extract_calls_go_filter rest [] p]
      refine List.Pairwise.cons ?_ ?_
      · intro b hb
        have hbf : b ∈ rest.filter (fun x => decide (x ≠ p)) :=
          ((extract_calls_go_mem b _ []).mp hb).1
        have hbne : ¬ b = p := by
          have h2 := (List.mem_filter.mp hbf).2
          simpa using h2
        simp only [firstIndex_cons, if_pos rfl, if_neg hbne, ite_true]
        omega
      · have hlen : (rest.filter (fun x => decide (x ≠ p))).length ≤ n := by
          have h1 := List.length_filter_le (fun x => decide (x ≠ p)) rest
          have h2 : rest.length ≤ n := by simpa using h
          omega
        have ih := extract_calls_pairwise_aux n
          (rest.filter (fun x => decide (x ≠ p))) hlen
        rw [extract_calls] at ih
        refine List.Pairwise.imp_of_mem ?_ ih
        intro a b ha hb hab
        have haf : a ∈ rest.filter (fun x => decide (x ≠ p)) :=
          ((extract_calls_go_mem a _ []).mp ha).1
        have hbf : b ∈ rest.filter (fun x => decide (x ≠ p)) :=
          ((extract_calls_go_mem b _ []).mp hb).1
        have hane : ¬ a = p := by
          have h2 := (List.mem_filter.mp haf).2
          simpa using h2
        have hbne : ¬ b = p := by
          have h2 := (List.mem_filter.mp hbf).2
          simpa using h2
        have hflt := (firstIndex_filter_lt rest _ a b haf hbf).mp hab
        simp only [firstIndex_cons, if_neg hane, if_neg hbne]
        omega

/-! ## C3: call-list deduplication -/

/-- C3: `_extract_calls` produces exactly the distinct resolved
`(contract, signature)` pairs — no duplicates, the same membership as
the input, length equal to the number of distinct pairs — ordered by
first occurrence in the input (first-occurrence indices strictly
increase along the output), and the stored identifiers are these pairs
in that order. -/
theorem C3_extract_calls_dedup (l : List (String × String)) :
    (extract_calls l).Nodup ∧
    (∀ p, p ∈ extract_calls l ↔ p ∈ l) ∧
    (extract_calls l).length = l.dedup.length ∧
    List.Pairwise (fun a b => firstIndex a l < firstIndex b l)
      (extract_calls l) ∧
    extract_calls_ids l =
      (extract_calls l).map (fun p => FunctionIdentifier.mk p.1 p.2) := by
  have hnd : (extract_calls l).Nodup := extract_calls_go_nodup l []
  have hmem : ∀ p, p ∈ extract_calls l ↔ p ∈ l := by
    intro p
    rw [extract_calls, extract_calls_go_mem p l []]
    simp
  refine ⟨hnd, hmem, ?_, extract_calls_pairwise_aux l.length l le_rfl, rfl⟩
  have h1 : (extract_calls l).toFinset = l.dedup.toFinset := by
    ext x
    simp only [List.mem_toFinset, hmem x, List.mem_dedup]
  have h2 := List.toFinset_card_of_nodup hnd
  have h3 := List.toFinset_card_of_nodup l.nodup_dedup
  rw [← h2, h1, h3]

/-! ## C4: ensure_loaded idempotence -/

theorem ensure_loaded_runs_cached {M : Type} (load m : M) :
    ∀ n : Nat, ensure_loaded_runs load n { project_model := some m } =
      (List.replicate n m, { project_model := some m }, 0)
  | 0 => rfl
  | n + 1 => by
      rw [ensure_loaded_runs]
      simp only [ensure_loaded]
      rw [ensure_loaded_runs_cached load m n, List.replicate_succ]
      rfl

/-- C4: on an engine instance whose `load()` succeeds with result
`load`, any positive number of consecutive `ensure_loaded` calls
starting from the fresh (unloaded) instance invokes `load()` exactly
once in total, returns that same model from every call, and leaves the
model cached. -/
theorem C4_ensure_loaded_at_most_once (M : Type) (load : M) (n : Nat) :
    ensure_loaded_runs load (n + 1) { project_model := none } =
      (List.replicate (n + 1) load, { project_model := some load }, 1) := by
  rw [ensure_loaded_runs]
  simp only [ensure_loaded]
  rw [ensure_loaded_runs_cached load load n, List.replicate_succ]
  rfl

/-! ## C5: capability-gated call-graph iteration -/

theorem unsupported_ne_not_loaded (name : String) :
    unsupported_msg name ≠ not_loaded_msg := by
  intro h
  rw [unsupported_msg, not_loaded_msg] at h
  have h2 := congrArg String.data h
  rw [String.data_append, String.data_append] at h2
  have h3 : ("Engine " : String).data = ['E', 'n', 'g', 'i', 'n', 'e', ' '] := by
    decide
  rw [h3] at h2
  simp at h2

/-- C5: `iter_call_graph` raises the "capability not supported" engine
failure exactly when `capabilities.call_graph` is false; and when the
flag is true and the project has been loaded (so the cache holds the
edges collected during `load`), it returns that cached edge sequence. -/
theorem C5_iter_call_graph_capability (name : String)
    (caps : EngineCapabilities) (cache : Option (List CallGraphEdge)) :
    (engine_iter_call_graph name caps (iter_call_graph_impl cache) =
        Except.error (unsupported_msg name) ↔ caps.call_graph = false) ∧
    (∀ (project : ProjectModel) (s : SlitherState),
      caps.call_graph = true →
      engine_iter_call_graph name caps
          (iter_call_graph_impl
            (slither_load (Except.ok project) s).2.call_graph_cache) =
        Except.ok (collect_call_edges project)) := by
  constructor
  · constructor
    · intro h
      by_contra hf
      have ht : caps.call_graph = true := by
        cases hcg : caps.call_graph
        · exact absurd hcg hf
        · rfl
      rw [engine_iter_call_graph, if_neg (by simp [ht])] at h
      cases cache with
      | none =>
          rw [iter_call_graph_impl] at h
          injection h with h
          exact unsupported_ne_not_loaded name h.symm
      | some edges =>
          rw [iter_call_graph_impl] at h
          simp at h
    · intro h
      rw [engine_iter_call_graph, if_pos h]
  · intro project s h
    simp [slither_load, engine_iter_call_graph, iter_call_graph_impl, h]

/-- C5 witness: for the Slither engine (whose capabilities have
`call_graph := true`) the capability failure does not occur, and after a
load of the empty sample project the cached (empty) edge sequence is
returned. -/
theorem C5_iter_call_graph_capability_witness :
    (engine_iter_call_graph "slither" slither_capabilities
        (iter_call_graph_impl (some sampleEdges)) =
          Except.error (unsupported_msg "slither") ↔
        slither_capabilities.call_graph = false) ∧
    engine_iter_call_graph "slither" slither_capabilities
        (iter_call_graph_impl
          (slither_load (Except.ok sampleProject)
            { call_graph_cache := none,
              project_model := none }).2.call_graph_cache) =
      Except.ok (collect_call_edges sampleProject) := by
  have h := C5_iter_call_graph_capability "slither" slither_capabilities
    (some sampleEdges)
  exact ⟨h.1, h.2 sampleProject
    { call_graph_cache := none, project_model := none } rfl⟩

/-! ## C6: the "get function source" payload -/

/-- C6 (evaluating the code): the payload emitted for a successful
"get function source" request consists of exactly the serialized
`FunctionInfo` keys `contract`, `function`, `source`, `location`,
`parameter`, `calls`; in particular it contains no `metadata` entry
naming the engine. -/
theorem C6_get_function_source_payload_keys (f : FunctionInfo)
    (project : ProjectModel) (fmt : String → String) :
    (f.as_dict project fmt).map Prod.fst =
      ["contract", "function", "source", "location", "parameter", "calls"] ∧
    ¬ "metadata" ∈ (f.as_dict project fmt).map Prod.fst := by
  have h1 : (f.as_dict project fmt).map Prod.fst =
      ["contract", "function", "source", "location", "parameter", "calls"] := rfl
  refine ⟨h1, ?_⟩
  rw [h1]
  decide

/-! ## C7: load failures are all-or-nothing -/

/-- C7: when the underlying analyzer raises during project
construction, `load` (as invoked via `ensure_loaded` on a not-yet-loaded
engine) re-raises the single engine-failure kind whose message wraps the
original message verbatim, and the engine state is left untouched — in
particular no project model is cached. -/
theorem C7_load_failure_all_or_nothing (msg : String) (s : SlitherState)
    (h : s.project_model = none) :
    slither_ensure_loaded (Except.error msg) s =
      (Except.error ("Failed to analyze project with Slither: " ++ msg), s) ∧
    ((slither_ensure_loaded (Except.error msg) s).2).project_model = none ∧
    (∃ pre, "Failed to analyze project with Slither: " ++ msg = pre ++ msg) := by
  have hmain : slither_ensure_loaded (Except.error msg) s =
      (Except.error ("Failed to analyze project with Slither: " ++ msg), s) := by
    simp only [slither_ensure_loaded, h, slither_load]
  refine ⟨hmain, ?_, ⟨"Failed to analyze project with Slither: ", rfl⟩⟩
  rw [hmain]
  exact h

/-- C7 witness: the theorem applied to a fresh engine instance and the
concrete analyzer failure message `"boom"`. -/
theorem C7_load_failure_all_or_nothing_witness :
    slither_ensure_loaded (Except.error "boom")
        { call_graph_cache := none, project_model := none } =
      (Except.error ("Failed to analyze project with Slither: " ++ "boom"),
       { call_graph_cache := none, project_model := none }) ∧
    ((slither_ensure_loaded (Except.error "boom")
        { call_graph_cache := none,
          project_model := none }).2).project_model = none :=
  ⟨(C7_load_failure_all_or_nothing "boom"
      { call_graph_cache := none, project_model := none } rfl).1,
   (C7_load_failure_all_or_nothing "boom"
      { call_graph_cache := none, project_model := none } rfl).2.1⟩

/-! ## C8: source-snippet fallback -/

/-- C8 counterexample: the claim as stated predicts that for *every*
location whose file cannot be opened the snippet is the empty string
and no error is raised; but on a valid location whose file's `open`
raises `PermissionError` (not caught — the source catches only
`FileNotFoundError`), `_read_source_snippet` propagates the error
instead of returning the empty snippet. -/
theorem C8_read_source_snippet_counterexample :
    ¬ (read_source_snippet sampleFs sampleLockedLoc = Except.ok "") := by
  intro h
  have h1 : read_source_snippet sampleFs sampleLockedLoc =
      Except.error "Permission denied" := rfl
  rw [h1] at h
  exact Except.noConfusion h

/-- C8 (amended): `_read_source_snippet` returns the empty string for a
sentinel location (line `-1`) or empty file path; the empty string,
with no error raised, when the file does not exist (`open` raises
`FileNotFoundError`, the only caught failure); any other open/read
failure propagates as an exception; and for a readable file and a
well-formed location, the inclusive 1-based line range
`[start_line, end_line]` of the file. -/
theorem C8_read_source_snippet (fs : String → OpenResult)
    (loc : SourceLocation) :
    (loc.file = "" ∨ loc.start_line = -1 ∨ loc.end_line = -1 →
      read_source_snippet fs loc = Except.ok "") ∧
    (fs loc.file = OpenResult.fileNotFound →
      read_source_snippet fs loc = Except.ok "") ∧
    (∀ msg, fs loc.file = OpenResult.otherError msg → loc.file ≠ "" →
      1 ≤ loc.start_line → loc.start_line ≤ loc.end_line →
      read_source_snippet fs loc = Except.error msg) ∧
    (∀ lines, fs loc.file = OpenResult.lines lines → loc.file ≠ "" →
      1 ≤ loc.start_line → loc.start_line ≤ loc.end_line →
      read_source_snippet fs loc =
        Except.ok (String.join ((lines.drop (loc.start_line - 1).toNat).take
          (loc.end_line - loc.start_line + 1).toNat))) := by
  refine ⟨?_, ?_, ?_, ?_⟩
  · intro h
    have hcond : loc.file = "" ∨ loc.start_line < 0 ∨ loc.end_line < 0 := by
      rcases h with h | h | h
      · exact Or.inl h
      · refine Or.inr (Or.inl ?_)
        rw [h]
        decide
      · refine Or.inr (Or.inr ?_)
        rw [h]
        decide
    rw [read_source_snippet, if_pos hcond]
  · intro hfs
    by_cases hcond : loc.file = "" ∨ loc.start_line < 0 ∨ loc.end_line < 0
    · rw [read_source_snippet, if_pos hcond]
    · rw [read_source_snippet, if_neg hcond, hfs]
  · intro msg hfs hfile h1 h2
    have hcond : ¬ (loc.file = "" ∨ loc.start_line < 0 ∨ loc.end_line < 0) := by
      rintro (h | h | h)
      · exact hfile h
      · omega
      · omega
    rw [read_source_snippet, if_neg hcond, hfs]
  · intro lines hfs hfile h1 h2
    have hcond : ¬ (loc.file = "" ∨ loc.start_line < 0 ∨ loc.end_line < 0) := by
      rintro (h | h | h)
      · exact hfile h
      · omega
      · omega
    rw [read_source_snippet, if_neg hcond, hfs]
    show Except.ok (String.join
        ((lines.take (max loc.end_line
          (max (loc.start_line - 1) 0 + 1)).toNat).drop
            (max (loc.start_line - 1) 0).toNat)) = _
    have hsi : max (loc.start_line - 1) 0 = loc.start_line - 1 := by omega
    rw [hsi]
    have hei : max loc.end_line (loc.start_line - 1 + 1) = loc.end_line := by
      omega
    rw [hei, List.drop_take]
    have harith : loc.end_line.toNat - (loc.start_line - 1).toNat =
        (loc.end_line - loc.start_line + 1).toNat := by omega
    rw [harith]

/-- C8 witness: on a concrete three-line file, the snippet for lines
2..3 is the inclusive range (here evaluated to `"line2\nline3\n"`); a
missing file and a sentinel location give the empty string with no
error; a permission failure propagates as an error. -/
theorem C8_read_source_snippet_witness :
    read_source_snippet sampleFs sampleLoc =
      Except.ok (String.join
        (((["line1\n", "line2\n", "line3\n"] : List String).drop
          (sampleLoc.start_line - 1).toNat).take
            (sampleLoc.end_line - sampleLoc.start_line + 1).toNat)) ∧
    read_source_snippet sampleFs sampleLoc = Except.ok "line2\nline3\n" ∧
    read_source_snippet sampleFs { sampleLoc with file := "missing.sol" } =
      Except.ok "" ∧
    read_source_snippet sampleFs { sampleLoc with start_line := -1 } =
      Except.ok "" ∧
    read_source_snippet sampleFs sampleLockedLoc =
      Except.error "Permission denied" := by
  refine ⟨?_, ?_, ?_, ?_, ?_⟩
  · exact (C8_read_source_snippet sampleFs sampleLoc).2.2.2
      ["line1\n", "line2\n", "line3\n"] (by decide) (by decide) (by decide)
      (by decide)
  · have h := (C8_read_source_snippet sampleFs sampleLoc).2.2.2
      ["line1\n", "line2\n", "line3\n"] (by decide) (by decide) (by decide)
      (by decide)
    rw [h]
    exact congrArg Except.ok (by decide)
  · exact (C8_read_source_snippet sampleFs
      { sampleLoc with file := "missing.sol" }).2.1 (by decide)
  · exact (C8_read_source_snippet sampleFs
      { sampleLoc with start_line := -1 }).1 (Or.inr (Or.inl rfl))
  · exact (C8_read_source_snippet sampleFs sampleLockedLoc).2.2.1
      "Permission denied" (by decide) (by decide) (by decide) (by decide)

/-! ## C9: unknown engine name -/

/-- C9: on a query service configured with an engine name that is not
registered, `list_contracts`, `get_function_source` and `get_call_graph`
all fail with the `QueryError` "Engine ... is not registered" (the
registry's `KeyError` is wrapped, and the result's error type is
`QueryErr`, not the registry error), the service state is unchanged, and
no engine instance is ever constructed (`engine` remains `none`). -/
theorem C9_unknown_engine_query_failure (E : Type) (ops : EngineOps E)
    (registry : List (String × EngineRegistration E))
    (engine_name project_path contract signature : String)
    (fmt : String → String) (cc cs : Option String)
    (hreg : registry.find? (fun p => decide (p.1 = engine_name)) = none) :
    query_list_contracts ops registry engine_name project_path
        { engine := none, project := none } =
      (Except.error (QueryErr.queryError
        ("Engine " ++ engine_name ++ " is not registered")),
       { engine := none, project := none }) ∧
    query_get_function_source ops registry engine_name project_path
        contract signature fmt { engine := none, project := none } =
      (Except.error (QueryErr.queryError
        ("Engine " ++ engine_name ++ " is not registered")),
       { engine := none, project := none }) ∧
    query_get_call_graph ops registry engine_name project_path cc cs
        { engine := none, project := none } =
      (Except.error (QueryErr.queryError
        ("Engine " ++ engine_name ++ " is not registered")),
       { engine := none, project := none }) := by
  have he : ensure_engine registry engine_name project_path
      ({ engine := none, project := none } : QueryState E) =
      (Except.error (QueryErr.queryError
        ("Engine " ++ engine_name ++ " is not registered")),
       { engine := none, project := none }) := by
    simp only [ensure_engine, resolve_engine, hreg]
  have hp : ensure_project ops registry engine_name project_path
      ({ engine := none, project := none } : QueryState E) =
      (Except.error (QueryErr.queryError
        ("Engine " ++ engine_name ++ " is not registered")),
       { engine := none, project := none }) := by
    simp only [ensure_project, he]
  refine ⟨?_, ?_, ?_⟩
  · simp only [query_list_contracts, hp]
  · simp only [query_get_function_source, hp]
  · simp only [query_get_call_graph, hp]

/-- C9 witness: the theorem applied to the engine name `"nonexistent"`
and an empty registry. -/
theorem C9_unknown_engine_query_failure_witness :
    query_list_contracts sampleOps [] "nonexistent" "."
        { engine := none, project := none } =
      (Except.error (QueryErr.queryError
        ("Engine " ++ "nonexistent" ++ " is not registered")),
       { engine := none, project := none }) ∧
    query_get_call_graph sampleOps [] "nonexistent" "." none none
        { engine := none, project := none } =
      (Except.error (QueryErr.queryError
        ("Engine " ++ "nonexistent" ++ " is not registered")),
       { engine := none, project := none }) := by
  have h := C9_unknown_engine_query_failure Unit sampleOps [] "nonexistent"
    "." "C" "f()" id none none rfl
  exact ⟨h.1, h.2.2⟩

/-! ## Call-graph filtering (C1, C10) -/

theorem amended_keep_eq_skip (cc cs : Option String) (e : CallGraphEdge) :
    amended_filter_keep cc cs e =
      (!skip_by_contract cc e && !skip_by_signature cs e) := by
  rw [amended_filter_keep]
  have h1 : amended_keep_contract cc e = !skip_by_contract cc e := by
    rcases cc with _ | c
    · rfl
    · by_cases hc : c = "" <;>
        simp [amended_keep_contract, skip_by_contract, hc]
  have h2 : amended_keep_signature cs e = !skip_by_signature cs e := by
    rcases cs with _ | d
    · rfl
    · by_cases hd : d = "" <;>
        simp [amended_keep_signature, skip_by_signature, hd]
  rw [h1, h2]

theorem filter_records_eq_amended :
    ∀ (cc cs : Option String) (edges : List CallGraphEdge),
      filter_records cc cs edges = amended_filtered cc cs edges
  | _, _, [] => rfl
  | cc, cs, e :: rest => by
      have ih := filter_records_eq_amended cc cs rest
      rw [amended_filtered] at ih ⊢
      rw [filter_records, List.filter_cons]
      by_cases hsc : skip_by_contract cc e = true
      · have hk : amended_filter_keep cc cs e = false := by
          rw [amended_keep_eq_skip, hsc]
          rfl
        rw [if_pos hsc, ih, hk]
        simp
      · have hsc2 : skip_by_contract cc e = false := by simpa using hsc
        by_cases hss : skip_by_signature cs e = true
        · have hk : amended_filter_keep cc cs e = false := by
            rw [amended_keep_eq_skip, hsc2, hss]
            rfl
          rw [if_neg hsc, if_pos hss, ih, hk]
          simp
        · have hss2 : skip_by_signature cs e = false := by simpa using hss
          have hk : amended_filter_keep cc cs e = true := by
            rw [amended_keep_eq_skip, hsc2, hss2]
            rfl
          rw [if_neg hsc, if_neg hss, ih, hk]
          simp

/-- C1 (amended): for every edge sequence held by the engine and
filters `cc`/`cs`, `get_call_graph` returns exactly the edges whose
caller matches every filter that is given *and non-empty* (conjunctively
when both apply; an empty-string filter behaves as an absent one), in
the engine's original edge order; with no effective filter the full
sequence is returned unchanged. -/
theorem C1_get_call_graph_filters (E : Type) (ops : EngineOps E)
    (registry : List (String × EngineRegistration E))
    (engine_name project_path : String) (cc cs : Option String)
    (s : QueryState E) (p : ProjectModel) (eng : E)
    (edges : List CallGraphEdge)
    (hp : s.project = some p) (he : s.engine = some eng)
    (hedges : ops.iterCallGraph eng = Except.ok edges) :
    query_get_call_graph ops registry engine_name project_path cc cs s =
      (Except.ok (amended_filtered cc cs edges), s) := by
  have hep : ensure_project ops registry engine_name project_path s =
      (Except.ok p, s) := by
    simp only [ensure_project, hp]
  have hee : ensure_engine registry engine_name project_path s =
      (Except.ok eng, s) := by
    simp only [ensure_engine, he]
  simp only [query_get_call_graph, hep, hee, hedges,
    filter_records_eq_amended]

/-- C1 witness: the theorem applied to a stub engine holding
`sampleEdges`, with the contract filter `"A"`. -/
theorem C1_get_call_graph_filters_witness :
    query_get_call_graph sampleOps [] "slither" "." (some "A") none
        sampleLoadedState =
      (Except.ok (amended_filtered (some "A") none sampleEdges),
       sampleLoadedState) :=
  C1_get_call_graph_filters Unit sampleOps [] "slither" "." (some "A") none
    sampleLoadedState sampleProject () sampleEdges rfl rfl rfl

/-- C1 counterexample: with the *given* empty-string contract filter
`some ""`, the claim as stated predicts that only edges whose caller
contract is `""` are returned (none, for `sampleEdges`), but
`get_call_graph` returns the full edge list — the filter is tested for
truthiness, not for being provided. -/
theorem C1_get_call_graph_filters_counterexample :
    ¬ (query_get_call_graph sampleOps [] "slither" "." (some "") none
          sampleLoadedState =
        (Except.ok (claim_filtered (some "") none sampleEdges),
         sampleLoadedState)) := by
  intro h
  have h1 : query_get_call_graph sampleOps [] "slither" "." (some "") none
      sampleLoadedState =
      (Except.ok [CallGraphRecord.mk "A.f()" "B.g()"], sampleLoadedState) :=
    rfl
  have h2 : claim_filtered (some "") none sampleEdges =
      ([] : List CallGraphRecord) := rfl
  rw [h2, h1] at h
  simp at h

/-- C10: an empty-string `caller_contract` or `caller_signature`
argument applies no filter for that argument (it behaves exactly like an
absent one), and with both filters empty `get_call_graph` returns the
unfiltered edge sequence in original order — even when an edge's own
caller contract or signature is the empty string. -/
theorem C10_empty_string_filter_is_no_filter (edges : List CallGraphEdge)
    (cc cs : Option String) :
    filter_records (some "") cs edges = filter_records none cs edges ∧
    filter_records cc (some "") edges = filter_records cc none edges ∧
    filter_records (some "") (some "") edges =
      edges.map CallGraphRecord.from_edge := by
  refine ⟨?_, ?_, ?_⟩
  · rw [filter_records_eq_amended, filter_records_eq_amended]
    rw [amended_filtered, amended_filtered]
    have hkeep : ∀ e ∈ edges, amended_filter_keep (some "") cs e =
        amended_filter_keep none cs e := by
      intro e _
      simp [amended_filter_keep, amended_keep_contract]
    rw [List.filter_congr hkeep]
  · rw [filter_records_eq_amended, filter_records_eq_amended]
    rw [amended_filtered, amended_filtered]
    have hkeep : ∀ e ∈ edges, amended_filter_keep cc (some "") e =
        amended_filter_keep cc none e := by
      intro e _
      simp [amended_filter_keep, amended_keep_signature]
    rw [List.filter_congr hkeep]
  · rw [filter_records_eq_amended, amended_filtered]
    have hkeep : ∀ e ∈ edges, amended_filter_keep (some "") (some "") e =
        true := by
      intro e _
      rfl
    rw [List.filter_eq_self.mpr hkeep]

end SolidityFcg
